import Mathlib

/-!
Verification of the CRUD_Hexagonal repository (`src/core/entities.py`,
`src/core/interfaces.py`, `src/core/use_cases.py`).

The Python code stores `User` dataclass instances in a Python `dict`
keyed by the entity's `id` string.  We embed the `dict` as an
association list with Python-dict semantics: assignment to an existing
key replaces the value in place (preserving insertion order),
assignment to a fresh key appends at the end, `del` removes the entry,
and `values()` lists values in insertion order.  Every repository and
service operation is embedded as an explicit state-passing function
returning `(answer, new store)`.
-/

set_option autoImplicit false

namespace CRUDHexagonal

/-- Embedding of the `User` dataclass from `core/entities.py`: the base
`Entity` fields (`id`, `created_at`, `updated_at`, `is_active`,
`deleted`) together with the `User` fields (`name`, `email`).  The
Python `field(default_factory=lambda: str(uuid.uuid4()))` default for
`id` is a call to a randomized library generator; entities here carry
their already-constructed `id`. -/
structure User where
  id : String
  created_at : Option String := none
  updated_at : Option String := none
  is_active : Bool := true
  deleted : Bool := false
  name : String := ""
  email : String := ""
  deriving DecidableEq, Repr

/-- The repository's backing container: `self.storage`, a Python `dict`
from id string to entity, embedded as an insertion-ordered association
list. -/
abbrev Store : Type := List (String × User)

/-- `storage.get(k)`: the value stored under `k`, if any. -/
def dictGet (k : String) : Store → Option User
  | [] => none
  | p :: rest => if p.1 = k then some p.2 else dictGet k rest

/-- `k in storage`: Python dict membership test. -/
def dictContains (k : String) (s : Store) : Bool :=
  (dictGet k s).isSome

/-- `storage[k] = v`: Python dict assignment.  An existing key keeps its
position and gets the new value; a fresh key is appended at the end. -/
def dictInsert (k : String) (v : User) : Store → Store
  | [] => [(k, v)]
  | p :: rest => if p.1 = k then (k, v) :: rest else p :: dictInsert k v rest

/-- `del storage[k]`: removes the entry for `k` (the first entry, which
is the only one in any store a Python dict can reach). -/
def dictDelete (k : String) : Store → Store
  | [] => []
  | p :: rest => if p.1 = k then rest else p :: dictDelete k rest

/-- `list(storage.values())`: the stored entities in insertion order. -/
def dictValues (s : Store) : List User :=
  s.map Prod.snd

/-- Stores reachable through the Python dict have pairwise distinct
keys. -/
def StoreWF (s : Store) : Prop :=
  (s.map Prod.fst).Nodup

instance (s : Store) : Decidable (StoreWF s) := by
  unfold StoreWF
  infer_instance

namespace InMemoryRepository

/-- `InMemoryRepository.get_by_id`: `return self.storage.get(entity_id)`.
The store is not modified. -/
def get_by_id (entity_id : String) (s : Store) : Option User × Store :=
  (dictGet entity_id s, s)

/-- `InMemoryRepository.get_all`: `return list(self.storage.values())`.
The store is not modified. -/
def get_all (s : Store) : List User × Store :=
  (dictValues s, s)

/-- `InMemoryRepository.create`:
`self.storage[entity.id] = entity; return entity`. -/
def create (entity : User) (s : Store) : User × Store :=
  (entity, dictInsert entity.id entity s)

/-- `InMemoryRepository.update`: replaces the stored value when
`entity_id in self.storage`, otherwise raises
`ValueError("Entity not found")`; the raise leaves the store as it
was. -/
def update (entity_id : String) (entity : User) (s : Store) :
    Except String User × Store :=
  if dictContains entity_id s then (Except.ok entity, dictInsert entity_id entity s)
  else (Except.error "Entity not found", s)

/-- `InMemoryRepository.delete`: removes the entry and returns `True`
when present, otherwise returns `False` leaving the store as it was. -/
def delete (entity_id : String) (s : Store) : Bool × Store :=
  if dictContains entity_id s then (true, dictDelete entity_id s)
  else (false, s)

end InMemoryRepository

namespace CRUDService

/-- `CRUDService.get`: `return self.repository.get_by_id(entity_id)`. -/
def get (entity_id : String) (s : Store) : Option User × Store :=
  InMemoryRepository.get_by_id entity_id s

/-- `CRUDService.list_all`: `return self.repository.get_all()`. -/
def list_all (s : Store) : List User × Store :=
  InMemoryRepository.get_all s

/-- `CRUDService.create`: `return self.repository.create(entity)`. -/
def create (entity : User) (s : Store) : User × Store :=
  InMemoryRepository.create entity s

/-- `CRUDService.update`:
`return self.repository.update(entity_id, entity)`. -/
def update (entity_id : String) (entity : User) (s : Store) :
    Except String User × Store :=
  InMemoryRepository.update entity_id entity s

/-- `CRUDService.delete`: `return self.repository.delete(entity_id)`. -/
def delete (entity_id : String) (s : Store) : Bool × Store :=
  InMemoryRepository.delete entity_id s

end CRUDService

/-! ### Basic lemmas about the dict embedding -/

theorem dictGet_dictInsert_self (k : String) (v : User) (s : Store) :
    dictGet k (dictInsert k v s) = some v := by
  induction s with
  | nil => simp [dictInsert, dictGet]
  | cons p rest ih =>
    by_cases h : p.1 = k
    · simp [dictInsert, dictGet, h]
    · simp [dictInsert, dictGet, h, ih]

theorem dictGet_dictInsert_ne (k k' : String) (v : User) (s : Store)
    (h : k' ≠ k) : dictGet k' (dictInsert k v s) = dictGet k' s := by
  have hk : k ≠ k' := fun hc => h hc.symm
  induction s with
  | nil => simp [dictInsert, dictGet, hk]
  | cons p rest ih =>
    by_cases hp : p.1 = k
    · simp [dictInsert, dictGet, hp, hk]
    · simp [dictInsert, dictGet, hp, ih]

theorem dictGet_eq_none_of_not_mem (k : String) (s : Store)
    (h : k ∉ s.map Prod.fst) : dictGet k s = none := by
  induction s with
  | nil => rfl
  | cons p rest ih =>
    simp only [List.map_cons, List.mem_cons] at h
    push_neg at h
    have hne : p.1 ≠ k := fun hc => h.1 hc.symm
    simp [dictGet, hne, ih h.2]

theorem dictGet_dictDelete_self (k : String) (s : Store) (hwf : StoreWF s) :
    dictGet k (dictDelete k s) = none := by
  induction s with
  | nil => rfl
  | cons p rest ih =>
    unfold StoreWF at hwf
    simp only [List.map_cons, List.nodup_cons] at hwf
    by_cases hp : p.1 = k
    · subst hp
      simp only [dictDelete, if_pos rfl]
      exact dictGet_eq_none_of_not_mem p.1 rest hwf.1
    · simp [dictDelete, dictGet, hp, ih hwf.2]

theorem dictInsert_of_fresh (k : String) (v : User) (s : Store)
    (h : dictGet k s = none) : dictInsert k v s = s ++ [(k, v)] := by
  induction s with
  | nil => rfl
  | cons p rest ih =>
    simp only [dictGet] at h
    by_cases hp : p.1 = k
    · rw [if_pos hp] at h
      exact absurd h (by simp)
    · rw [if_neg hp] at h
      simp [dictInsert, hp, ih h]

/-! ### Transformations of the inert entity fields

`mapVals t` applies an entity transformation to every stored value,
leaving keys untouched; with `t` restricted to the fields no operation
uses (`created_at`, `updated_at`, `is_active`, `deleted`), commuting
the operations past `mapVals t` shows they neither read nor write those
fields. -/

def mapVals (t : User → User) (s : Store) : Store :=
  s.map (fun p => (p.1, t p.2))

theorem dictGet_mapVals (t : User → User) (k : String) (s : Store) :
    dictGet k (mapVals t s) = (dictGet k s).map t := by
  induction s with
  | nil => rfl
  | cons p rest ih =>
    by_cases hp : p.1 = k
    · simp [mapVals, dictGet, hp]
    · simpa [mapVals, dictGet, hp] using ih

theorem dictContains_mapVals (t : User → User) (k : String) (s : Store) :
    dictContains k (mapVals t s) = dictContains k s := by
  simp [dictContains, dictGet_mapVals]

theorem dictInsert_mapVals (t : User → User) (k : String) (v : User) (s : Store) :
    dictInsert k (t v) (mapVals t s) = mapVals t (dictInsert k v s) := by
  induction s with
  | nil => rfl
  | cons p rest ih =>
    by_cases hp : p.1 = k
    · simp [mapVals, dictInsert, hp]
    · simp only [mapVals, List.map_cons] at ih ⊢
      simp [dictInsert, hp, ih]

theorem dictDelete_mapVals (t : User → User) (k : String) (s : Store) :
    dictDelete k (mapVals t s) = mapVals t (dictDelete k s) := by
  induction s with
  | nil => rfl
  | cons p rest ih =>
    by_cases hp : p.1 = k
    · simp [mapVals, dictDelete, hp]
    · simp only [mapVals, List.map_cons] at ih ⊢
      simp [dictDelete, hp, ih]

theorem dictValues_cons (p : String × User) (s : Store) :
    dictValues (p :: s) = p.2 :: dictValues s := rfl

theorem mem_dictValues_dictInsert (k : String) (v w : User) (s : Store)
    (h : w ∈ dictValues (dictInsert k v s)) : w ∈ dictValues s ∨ w = v := by
  induction s with
  | nil =>
    simp [dictValues, dictInsert] at h
    exact Or.inr h
  | cons p rest ih =>
    by_cases hp : p.1 = k
    · rw [dictInsert, if_pos hp, dictValues_cons] at h
      rcases List.mem_cons.mp h with h | h
      · exact Or.inr h
      · exact Or.inl (by rw [dictValues_cons]; exact List.mem_cons_of_mem _ h)
    · rw [dictInsert, if_neg hp, dictValues_cons] at h
      rcases List.mem_cons.mp h with h | h
      · exact Or.inl (by rw [dictValues_cons]; exact List.mem_cons.mpr (Or.inl h))
      · rcases ih h with h' | h'
        · exact Or.inl (by rw [dictValues_cons]; exact List.mem_cons_of_mem _ h')
        · exact Or.inr h'

theorem mem_dictValues_dictDelete (k : String) (w : User) (s : Store)
    (h : w ∈ dictValues (dictDelete k s)) : w ∈ dictValues s := by
  induction s with
  | nil => simp [dictValues, dictDelete] at h
  | cons p rest ih =>
    by_cases hp : p.1 = k
    · rw [dictDelete, if_pos hp] at h
      rw [dictValues_cons]
      exact List.mem_cons_of_mem _ h
    · rw [dictDelete, if_neg hp, dictValues_cons] at h
      rw [dictValues_cons]
      rcases List.mem_cons.mp h with h | h
      · exact List.mem_cons.mpr (Or.inl h)
      · exact List.mem_cons_of_mem _ (ih h)

theorem dictGet_mem_dictValues (k : String) (v : User) (s : Store)
    (h : dictGet k s = some v) : v ∈ dictValues s := by
  induction s with
  | nil => simp [dictGet] at h
  | cons p rest ih =>
    by_cases hp : p.1 = k
    · rw [dictGet, if_pos hp] at h
      rw [dictValues_cons, Option.some_inj.mp h]
      exact List.mem_cons_self _ _
    · rw [dictGet, if_neg hp] at h
      rw [dictValues_cons]
      exact List.mem_cons_of_mem _ (ih h)

/-! ### Sample data for concrete evaluations -/

def aliceUser : User :=
  { id := "u1", name := "Alice", email := "alice@example.com" }

def bobUser : User :=
  { id := "u2", name := "Bob", email := "bob@example.com" }

/-- An entity whose own `id` field differs from any storage key it is
filed under. -/
def strayUser : User :=
  { id := "zz", name := "Stray", email := "stray@example.com" }

/-- A second entity sharing `aliceUser`'s id, for overwrite scenarios. -/
def aliceTwin : User :=
  { id := "u1", name := "Alice Two", email := "alice2@example.com" }

def sampleStore : Store :=
  [("u1", aliceUser)]

/-! ### Claim theorems -/

/-- C1.  Round-trip: for every entity `e` added to an
`InMemoryRepository` via `create`, a subsequent `get_by_id` with
`create(e).id` returns an entity equal in all fields (`id`,
`created_at`, `updated_at`, `is_active`, `deleted`, `name`, `email`)
to `e`. -/
theorem create_get_round_trip (e : User) (s : Store) :
    (InMemoryRepository.get_by_id
        ((InMemoryRepository.create e s).1.id)
        (InMemoryRepository.create e s).2).1 = some e := by
  simp [InMemoryRepository.get_by_id, InMemoryRepository.create,
    dictGet_dictInsert_self]

/-- C2.  Update on a missing id fails atomically: for every id `k`
absent from the store and every entity `e`, `update k e` raises the
not-found condition (`ValueError("Entity not found")`) and the store
afterwards is exactly the store before the call. -/
theorem update_missing_id_fails (k : String) (e : User) (s : Store)
    (h : dictContains k s = false) :
    InMemoryRepository.update k e s = (Except.error "Entity not found", s) := by
  simp [InMemoryRepository.update, h]

theorem update_missing_id_fails_witness :
    dictContains "missing" sampleStore = false ∧
    InMemoryRepository.update "missing" bobUser sampleStore =
      (Except.error "Entity not found", sampleStore) :=
  ⟨by decide, update_missing_id_fails "missing" bobUser sampleStore (by decide)⟩

/-- C3.  Update replaces wholesale and never checks id consistency: for
every id `k` present in the store and every replacement entity `e2`
(including when `e2.id` differs from `k`), `update k e2` succeeds,
returns `e2`, and a subsequent `get_by_id k` returns exactly `e2`;
`e2` is stored under key `k` regardless of its own `id` field. -/
theorem update_replaces_wholesale (k : String) (e2 : User) (s : Store)
    (h : dictContains k s = true) :
    (InMemoryRepository.update k e2 s).1 = Except.ok e2 ∧
    (InMemoryRepository.get_by_id k (InMemoryRepository.update k e2 s).2).1 =
      some e2 := by
  refine ⟨?_, ?_⟩
  · simp [InMemoryRepository.update, h]
  · simp [InMemoryRepository.update, InMemoryRepository.get_by_id, h,
      dictGet_dictInsert_self]

/-- Witness for C3, using a replacement entity (`strayUser`, own id
`"zz"`) filed under the unrelated key `"u1"`. -/
theorem update_replaces_wholesale_witness :
    dictContains "u1" sampleStore = true ∧ strayUser.id ≠ "u1" ∧
    ((InMemoryRepository.update "u1" strayUser sampleStore).1 =
        Except.ok strayUser ∧
      (InMemoryRepository.get_by_id "u1"
          (InMemoryRepository.update "u1" strayUser sampleStore).2).1 =
        some strayUser) :=
  ⟨by decide, by decide,
    update_replaces_wholesale "u1" strayUser sampleStore (by decide)⟩

/-- C5.  Create never fails and overwrites silently: for every entity
`e` and every store state, `create e` inserts `e` keyed by `e.id` —
replacing any existing entry under `e.id` with no uniqueness check and
no error — returns the same entity `e`, and leaves every other key's
entry untouched. -/
theorem create_overwrites_silently (e : User) (s : Store) :
    (InMemoryRepository.create e s).1 = e ∧
    (InMemoryRepository.get_by_id e.id (InMemoryRepository.create e s).2).1 =
      some e ∧
    ∀ k, k ≠ e.id →
      dictGet k (InMemoryRepository.create e s).2 = dictGet k s := by
  refine ⟨rfl, ?_, ?_⟩
  · simp [InMemoryRepository.create, InMemoryRepository.get_by_id,
      dictGet_dictInsert_self]
  · intro k hk
    simp [InMemoryRepository.create, dictGet_dictInsert_ne _ _ _ _ hk]

/-- Witness for C5, overwriting the existing entry under key `"u1"`
with a different entity carrying the same id. -/
theorem create_overwrites_silently_witness :
    dictContains "u1" sampleStore = true ∧
    ((InMemoryRepository.create aliceTwin sampleStore).1 = aliceTwin ∧
      (InMemoryRepository.get_by_id aliceTwin.id
          (InMemoryRepository.create aliceTwin sampleStore).2).1 =
        some aliceTwin) ∧
    dictGet "u2" (InMemoryRepository.create aliceTwin sampleStore).2 =
      dictGet "u2" sampleStore :=
  ⟨by decide,
    ⟨(create_overwrites_silently aliceTwin sampleStore).1,
      (create_overwrites_silently aliceTwin sampleStore).2.1⟩,
    (create_overwrites_silently aliceTwin sampleStore).2.2 "u2" (by decide)⟩

/-- C4.  Delete is idempotent-observable and never raises: for every id
present in the store, `delete` returns `True` and a subsequent
`get_by_id` on that id returns absent; for every id absent from the
store, `delete` returns `False` (an ordinary return value, not an
exception) and the store is unchanged.  The returned flag always
equals the membership test. -/
theorem delete_idempotent_observable (k : String) (s : Store)
    (hwf : StoreWF s) :
    ((InMemoryRepository.delete k s).1 = dictContains k s) ∧
    (dictContains k s = true →
      (InMemoryRepository.get_by_id k (InMemoryRepository.delete k s).2).1 =
        none) ∧
    (dictContains k s = false → InMemoryRepository.delete k s = (false, s)) := by
  refine ⟨?_, ?_, ?_⟩
  · cases h : dictContains k s <;> simp [InMemoryRepository.delete, h]
  · intro h
    simp [InMemoryRepository.delete, InMemoryRepository.get_by_id, h,
      dictGet_dictDelete_self k s hwf]
  · intro h
    simp [InMemoryRepository.delete, h]

/-- Witness for C4: both branches at concrete inputs — deleting the
present id `"u1"` and the absent id `"zz"`. -/
theorem delete_idempotent_observable_witness :
    StoreWF sampleStore ∧ dictContains "u1" sampleStore = true ∧
    (InMemoryRepository.get_by_id "u1"
        (InMemoryRepository.delete "u1" sampleStore).2).1 = none ∧
    dictContains "zz" sampleStore = false ∧
    InMemoryRepository.delete "zz" sampleStore = (false, sampleStore) :=
  ⟨by decide, by decide,
    (delete_idempotent_observable "u1" sampleStore (by decide)).2.1 (by decide),
    by decide,
    (delete_idempotent_observable "zz" sampleStore (by decide)).2.2 (by decide)⟩

/-- C6.  List reflects the store in insertion order: `get_all` returns
exactly the entities currently stored, in the insertion order of the
underlying container (a fresh key is appended at the end); in
particular, after `create e1`, `create e2`, `delete e1.id` on a fresh
repository, `get_all` returns exactly `[e2]`. -/
theorem list_reflects_store (e e1 e2 : User) (s : Store) :
    ((InMemoryRepository.get_all s).1 = dictValues s) ∧
    (dictContains e.id s = false →
      (InMemoryRepository.get_all (InMemoryRepository.create e s).2).1 =
        (InMemoryRepository.get_all s).1 ++ [e]) ∧
    (e1.id ≠ e2.id →
      (InMemoryRepository.get_all
          (InMemoryRepository.delete e1.id
            (InMemoryRepository.create e2
              (InMemoryRepository.create e1 ([] : Store)).2).2).2).1 = [e2]) := by
  refine ⟨rfl, ?_, ?_⟩
  · intro h
    have hg : dictGet e.id s = none := by
      cases hq : dictGet e.id s with
      | none => rfl
      | some v =>
        unfold dictContains at h
        rw [hq] at h
        simp at h
    simp [InMemoryRepository.get_all, InMemoryRepository.create, dictValues,
      dictInsert_of_fresh e.id e s hg]
  · intro h
    simp [InMemoryRepository.create, InMemoryRepository.delete,
      InMemoryRepository.get_all, dictInsert, dictContains, dictGet,
      dictDelete, dictValues, h]

/-- Witness for C6: appending a fresh entity to `sampleStore`, and the
create–create–delete scenario with two concrete users. -/
theorem list_reflects_store_witness :
    dictContains bobUser.id sampleStore = false ∧
    (InMemoryRepository.get_all
        (InMemoryRepository.create bobUser sampleStore).2).1 =
      (InMemoryRepository.get_all sampleStore).1 ++ [bobUser] ∧
    aliceUser.id ≠ bobUser.id ∧
    (InMemoryRepository.get_all
        (InMemoryRepository.delete aliceUser.id
          (InMemoryRepository.create bobUser
            (InMemoryRepository.create aliceUser ([] : Store)).2).2).2).1 =
      [bobUser] :=
  ⟨by decide,
    (list_reflects_store bobUser aliceUser bobUser sampleStore).2.1 (by decide),
    by decide,
    (list_reflects_store bobUser aliceUser bobUser sampleStore).2.2 (by decide)⟩

/-- C7.  The service is a pure pass-through: for every store state and
every argument, each of the five `CRUDService` operations (`get`,
`list_all`, `create`, `update`, `delete`) returns exactly the result
of the corresponding `InMemoryRepository` operation and has exactly
its effect on the store — in particular the not-found failure of
`update` propagates unchanged through the service. -/
theorem service_is_pass_through (k : String) (e : User) (s : Store) :
    CRUDService.get k s = InMemoryRepository.get_by_id k s ∧
    CRUDService.list_all s = InMemoryRepository.get_all s ∧
    CRUDService.create e s = InMemoryRepository.create e s ∧
    CRUDService.update k e s = InMemoryRepository.update k e s ∧
    CRUDService.delete k s = InMemoryRepository.delete k s :=
  ⟨rfl, rfl, rfl, rfl, rfl⟩

/-- C8.  Dead-field and id frame condition: every operation commutes
with any transformation `t` that touches only the `created_at`,
`updated_at`, `is_active` and `deleted` fields (so no operation reads
or writes those fields), and every entity stored by `create`, `update`
or `delete` is kept verbatim — it is either an entity already in the
store or the exact argument entity, so no operation regenerates or
mutates any entity's `id` (or any other field) after construction. -/
theorem dead_field_and_id_frame (t : User → User) (k : String) (e : User)
    (s : Store)
    (ht : ∀ u, (t u).id = u.id ∧ (t u).name = u.name ∧ (t u).email = u.email) :
    (InMemoryRepository.get_by_id k (mapVals t s) =
      ((InMemoryRepository.get_by_id k s).1.map t, mapVals t s)) ∧
    ((InMemoryRepository.get_all (mapVals t s)).1 =
      (InMemoryRepository.get_all s).1.map t) ∧
    (InMemoryRepository.create (t e) (mapVals t s) =
      (t e, mapVals t (InMemoryRepository.create e s).2)) ∧
    (InMemoryRepository.update k (t e) (mapVals t s) =
      (Except.map t (InMemoryRepository.update k e s).1,
        mapVals t (InMemoryRepository.update k e s).2)) ∧
    (InMemoryRepository.delete k (mapVals t s) =
      ((InMemoryRepository.delete k s).1,
        mapVals t (InMemoryRepository.delete k s).2)) ∧
    (∀ v, v ∈ dictValues (InMemoryRepository.create e s).2 →
      v ∈ dictValues s ∨ v = e) ∧
    (∀ v, v ∈ dictValues (InMemoryRepository.update k e s).2 →
      v ∈ dictValues s ∨ v = e) ∧
    (∀ v, v ∈ dictValues (InMemoryRepository.delete k s).2 →
      v ∈ dictValues s) := by
  refine ⟨?_, ?_, ?_, ?_, ?_, ?_, ?_, ?_⟩
  · simp [InMemoryRepository.get_by_id, dictGet_mapVals]
  · simp [InMemoryRepository.get_all, dictValues, mapVals, List.map_map]
  · simp [InMemoryRepository.create, (ht e).1, dictInsert_mapVals]
  · cases hc : dictContains k s with
    | false =>
      simp [InMemoryRepository.update, dictContains_mapVals, hc, Except.map]
    | true =>
      simp [InMemoryRepository.update, dictContains_mapVals, hc,
        dictInsert_mapVals, Except.map]
  · cases hc : dictContains k s with
    | false =>
      simp [InMemoryRepository.delete, dictContains_mapVals, hc]
    | true =>
      simp [InMemoryRepository.delete, dictContains_mapVals, hc,
        dictDelete_mapVals]
  · intro v hv
    exact mem_dictValues_dictInsert e.id e v s hv
  · intro v hv
    cases hc : dictContains k s with
    | false =>
      rw [InMemoryRepository.update, hc] at hv
      exact Or.inl hv
    | true =>
      rw [InMemoryRepository.update, hc] at hv
      exact mem_dictValues_dictInsert k e v s hv
  · intro v hv
    cases hc : dictContains k s with
    | false =>
      rw [InMemoryRepository.delete, hc] at hv
      exact hv
    | true =>
      rw [InMemoryRepository.delete, hc] at hv
      exact mem_dictValues_dictDelete k v s hv

/-- A transformation touching only the inert fields: it flips
`is_active` and `deleted` and fills both timestamps, leaving `id`,
`name` and `email` alone. -/
def inertMark (u : User) : User :=
  { u with
    created_at := some "2020-01-01"
    updated_at := some "2020-01-02"
    is_active := false
    deleted := true }

/-- Witness for C8: the commuting facts for `get_by_id` and `update` at
concrete inputs, and one verbatim-storage instance. -/
theorem dead_field_and_id_frame_witness :
    (InMemoryRepository.get_by_id "u1" (mapVals inertMark sampleStore) =
      ((InMemoryRepository.get_by_id "u1" sampleStore).1.map inertMark,
        mapVals inertMark sampleStore)) ∧
    (InMemoryRepository.update "u1" (inertMark bobUser)
        (mapVals inertMark sampleStore) =
      (Except.map inertMark (InMemoryRepository.update "u1" bobUser sampleStore).1,
        mapVals inertMark
          (InMemoryRepository.update "u1" bobUser sampleStore).2)) ∧
    (aliceUser ∈ dictValues (InMemoryRepository.create bobUser sampleStore).2 ∧
      (aliceUser ∈ dictValues sampleStore ∨ aliceUser = bobUser)) :=
  ⟨(dead_field_and_id_frame inertMark "u1" bobUser sampleStore
      (fun _ => ⟨rfl, rfl, rfl⟩)).1,
    (dead_field_and_id_frame inertMark "u1" bobUser sampleStore
      (fun _ => ⟨rfl, rfl, rfl⟩)).2.2.2.1,
    by decide,
    (dead_field_and_id_frame inertMark "u1" bobUser sampleStore
      (fun _ => ⟨rfl, rfl, rfl⟩)).2.2.2.2.2.1 aliceUser (by decide)⟩

/-- C10.  Read operations are pure with respect to the store: for every
store state and every id, `get_by_id` and `get_all` (and the service's
`get` and `list_all`) leave the repository's storage mapping exactly
unchanged. -/
theorem read_operations_are_pure (k : String) (s : Store) :
    (InMemoryRepository.get_by_id k s).2 = s ∧
    (InMemoryRepository.get_all s).2 = s ∧
    (CRUDService.get k s).2 = s ∧
    (CRUDService.list_all s).2 = s :=
  ⟨rfl, rfl, rfl, rfl⟩

end CRUDHexagonal
